import Mathlib

/-!
Shallow embedding of the BrainyFlow cookbook repository: the node/flow
execution engine (Shared Store, three-phase node lifecycle, action-labelled
edges, sequential and parallel batch execution) together with the concrete
node and runner logic of the cookbook scripts.

The engine (`brainyflow` / `pocketflow` module) is code of this repository
that is not present under `src/`; its behaviour is modelled from the spec.
The cookbook scripts under `src/` are embedded directly from the source.
-/

namespace BrainyFlow

/-! ## Shared Store

Modelled from the spec: a mutable mapping from string key to value, passed to
every node invocation; writes overwrite the value at an existing key.
Embedded as an association list with overwrite-on-set, matching a Python
dict's item assignment. -/

/-- A Shared Store: mapping from string keys to values of type `V`. -/
def Store (V : Type) : Type := List (String × V)

/-- Read the value at key `k` (Python `shared[k]`, as an `Option`). -/
def Store.getVal {V : Type} : Store V → String → Option V
  | [], _ => none
  | (k', v) :: rest, k => if k' = k then some v else Store.getVal rest k

/-- Write value `v` at key `k`, overwriting an existing binding
(Python `shared[k] = v`). -/
def Store.setVal {V : Type} : Store V → String → V → Store V
  | [], k, v => [(k, v)]
  | (k', v') :: rest, k, v =>
      if k' = k then (k, v) :: rest else (k', v') :: Store.setVal rest k v

/-- Key presence test (Python `k in shared`). -/
def Store.hasKey {V : Type} (s : Store V) (k : String) : Bool :=
  (s.getVal k).isSome

/-- Apply a list of writes to the store, in order. -/
def applyWrites {V : Type} (s : Store V) (ws : List (String × V)) : Store V :=
  ws.foldl (fun acc kv => acc.setVal kv.1 kv.2) s

theorem Store.getVal_setVal_self {V : Type} (s : Store V) (k : String) (v : V) :
    (s.setVal k v).getVal k = some v := by
  induction s with
  | nil => simp [Store.setVal, Store.getVal]
  | cons hd tl ih =>
      by_cases h : hd.1 = k
      · simp [Store.setVal, h, Store.getVal]
      · simp [Store.setVal, h, Store.getVal, ih]

theorem Store.getVal_setVal_ne {V : Type} (s : Store V) (k k' : String) (v : V)
    (h : k' ≠ k) : (s.setVal k' v).getVal k = s.getVal k := by
  induction s with
  | nil => simp [Store.setVal, Store.getVal, h]
  | cons hd tl ih =>
      by_cases h2 : hd.1 = k'
      · have hk : ¬ (k' = k) := h
        simp [Store.setVal, h2, Store.getVal, hk]
      · simp [Store.setVal, h2, Store.getVal, ih]

/-- Setting any key preserves presence of every key already in the store. -/
theorem Store.hasKey_setVal_of_hasKey {V : Type} (s : Store V) (k k' : String)
    (v : V) (h : s.hasKey k = true) : (s.setVal k' v).hasKey k = true := by
  by_cases he : k' = k
  · subst he
    simp [Store.hasKey, Store.getVal_setVal_self]
  · simpa [Store.hasKey, Store.getVal_setVal_ne s k k' v he] using h

/-- A write sequence preserves presence of every key already in the store. -/
theorem hasKey_applyWrites_of_hasKey {V : Type} (ws : List (String × V))
    (s : Store V) (k : String) (h : s.hasKey k = true) :
    (applyWrites s ws).hasKey k = true := by
  induction ws generalizing s with
  | nil => simpa [applyWrites] using h
  | cons hd tl ih =>
      simp only [applyWrites, List.foldl_cons] at *
      exact ih _ (Store.hasKey_setVal_of_hasKey s k hd.1 hd.2 h)

/-- A key that occurs among the writes is present after the writes apply. -/
theorem hasKey_applyWrites_of_mem {V : Type} (ws : List (String × V))
    (s : Store V) (k : String) (v : V) (h : (k, v) ∈ ws) :
    (applyWrites s ws).hasKey k = true := by
  induction ws generalizing s with
  | nil => cases h
  | cons hd tl ih =>
      simp only [applyWrites, List.foldl_cons]
      rcases List.mem_cons.mp h with h1 | h1
      · subst h1
        exact hasKey_applyWrites_of_hasKey tl _ k
          (by simp [Store.hasKey, Store.getVal_setVal_self])
      · exact ih _ h1

/-! ## Node lifecycle

Modelled from the spec: a node has three sequential phases.
`prepare(store)` is a pure read projection of the Shared Store;
`execute(prep_result)` does not access the store at all; `post(store,
prep_result, exec_result)` declares a list of store writes and an optional
action label (absence of a returned label means the default action). -/

/-- A node: three-phase lifecycle over value type `V`, prepared-input type
`P` and intermediate-result type `E`. -/
structure Node (V P E : Type) where
  prep : Store V → P
  exec : P → E
  post : Store V → P → E → List (String × V) × Option String

/-- The default action string, used when the post phase returns no label. -/
def defaultAction : String := "default"

/-- The prepare phase as a store transformer: it reads from the store and
leaves it unchanged. -/
def prepPhase {V P E : Type} (n : Node V P E) (s : Store V) : Store V × P :=
  (s, n.prep s)

/-- The execute phase as a store transformer: it does not access the store. -/
def execPhase {V P E : Type} (n : Node V P E) (s : Store V) (p : P) :
    Store V × E :=
  (s, n.exec p)

/-- The post phase as a store transformer: applies the declared writes and
yields the optional action label. -/
def postPhase {V P E : Type} (n : Node V P E) (s : Store V) (p : P) (e : E) :
    Store V × Option String :=
  (applyWrites s (n.post s p e).1, (n.post s p e).2)

/-- One full node invocation: prepare, execute, post, in that order; the
emitted action is the returned label, or the default action if none. -/
def stepNode {V P E : Type} (n : Node V P E) (s : Store V) :
    Store V × String :=
  let (s1, p) := prepPhase n s
  let (s2, e) := execPhase n s1 p
  let (s3, a) := postPhase n s2 p e
  (s3, a.getD defaultAction)

/-! ## Flow graph: action-labelled edges -/

/-- The edge set of a flow: a list of ((source node, action), destination). -/
def Edges : Type := List ((Nat × String) × Nat)

/-- Exact edge lookup for the (source node, action label) pair. -/
def lookupEdge : Edges → Nat → String → Option Nat
  | [], _, _ => none
  | ((s, l), d) :: rest, src, a =>
      if s = src ∧ l = a then some d else lookupEdge rest src a

/-- Configuration errors raised at graph-construction time.
Modelled from the spec: registering a second edge for an existing
(node, action) pair is a configuration error. -/
inductive ConfigErr : Type
  | duplicateEdge (src : Nat) (action : String)
deriving DecidableEq, Repr

/-- Register an edge (`src - action >> dst`); rejects a duplicate
(node, action) pair at graph-build time. -/
def addEdge (es : Edges) (src : Nat) (a : String) (dst : Nat) :
    Except ConfigErr Edges :=
  match lookupEdge es src a with
  | some _ => .error (.duplicateEdge src a)
  | none => .ok (((src, a), dst) :: es)

/-! ## Flow traversal

Modelled from the spec: starting at the entry node, run the current node's
full lifecycle, look up the edge for (current node, emitted action); if
found, continue at the destination; if not found, terminate successfully at
that node. Fuel bounds the recursion (the optional maximum-step guard). -/

/-- Outcome of a flow run. -/
inductive RunResult (V : Type) : Type
  | finished (store : Store V) (node : Nat) (action : String)
  | outOfFuel (store : Store V) (node : Nat)

/-- Flow traversal: drive each node's lifecycle and follow the edge matching
the emitted action, until no matching edge exists or fuel runs out. -/
def runFlow {V P E : Type} (nodes : Nat → Node V P E) (es : Edges) :
    Nat → Store V → Nat → RunResult V
  | cur, s, 0 => .outOfFuel s cur
  | cur, s, fuel + 1 =>
      let r := stepNode (nodes cur) s
      match lookupEdge es cur r.2 with
      | none => .finished r.1 cur r.2
      | some nxt => runFlow nodes es nxt r.1 fuel

/-- The sequence of stores observed during a run: the store handed to each
executed node's prepare phase, followed by the final store. -/
def runStores {V P E : Type} (nodes : Nat → Node V P E) (es : Edges) :
    Nat → Store V → Nat → List (Store V)
  | _, s, 0 => [s]
  | cur, s, fuel + 1 =>
      let r := stepNode (nodes cur) s
      match lookupEdge es cur r.2 with
      | none => [s, r.1]
      | some nxt => s :: runStores nodes es nxt r.1 fuel

theorem runStores_head {V P E : Type} (nodes : Nat → Node V P E) (es : Edges)
    (cur : Nat) (s : Store V) (fuel : Nat) :
    (runStores nodes es cur s fuel).head? = some s := by
  cases fuel with
  | zero => rfl
  | succ n =>
      simp only [runStores]
      cases lookupEdge es cur (stepNode (nodes cur) s).2 <;> rfl

/-! ## Sequential batch execution

Modelled from the spec: items processed one at a time, in input order; item
i+1 begins only after item i's execute call returns; a single item failure
aborts the batch (fail-fast) when no per-item fallback is declared. -/

/-- Run the per-item execute call over the items, one at a time, in input
order; the first failure aborts the batch. -/
def runSequentialB {α β ε : Type} (f : α → Except ε β) :
    List α → Except ε (List β)
  | [] => .ok []
  | a :: rest =>
      match f a with
      | .error e => .error e
      | .ok b =>
          match runSequentialB f rest with
          | .error e => .error e
          | .ok bs => .ok (b :: bs)

/-- The items whose execute call is actually invoked by the sequential
batch, in invocation order. -/
def seqInvokeTrace {α β ε : Type} (f : α → Except ε β) : List α → List α
  | [] => []
  | a :: rest =>
      match f a with
      | .error _ => [a]
      | .ok _ => a :: seqInvokeTrace f rest

/-! ## Parallel batch execution

Modelled from the spec: all items' execute calls are dispatched concurrently;
completion order is arbitrary; results are assembled by input index, not
completion time. The `order` list records the slot indices in the order the
dispatched tasks complete; each completion writes its slot of the result
array. -/

/-- Record each task's result in its input-index slot, processing slots in
the order tasks complete. -/
def fillSlots {α β : Type} (f : α → β) (items : List α) :
    List Nat → List (Option β) → List (Option β)
  | [], acc => acc
  | i :: rest, acc =>
      match items[i]? with
      | none => fillSlots f items rest acc
      | some a => fillSlots f items rest (acc.set i (some (f a)))

/-- Assemble the slot array into the aggregate result list; fails if some
slot never completed. -/
def collectSlots {β : Type} : List (Option β) → Option (List β)
  | [] => some []
  | none :: _ => none
  | some b :: rest => (collectSlots rest).map (fun bs => b :: bs)

/-- Parallel batch execution with completion order `order`. -/
def runParallelB {α β : Type} (f : α → β) (items : List α)
    (order : List Nat) : Option (List β) :=
  collectSlots (fillSlots f items order (List.replicate items.length none))

theorem fillSlots_length {α β : Type} (f : α → β) (items : List α)
    (order : List Nat) (acc : List (Option β)) :
    (fillSlots f items order acc).length = acc.length := by
  induction order generalizing acc with
  | nil => rfl
  | cons i rest ih =>
      simp only [fillSlots]
      cases items[i]? with
      | none => exact ih acc
      | some a => simpa using ih (acc.set i (some (f a)))

theorem fillSlots_getElem?_of_not_mem {α β : Type} (f : α → β)
    (items : List α) (order : List Nat) (acc : List (Option β)) (j : Nat)
    (h : j ∉ order) : (fillSlots f items order acc)[j]? = acc[j]? := by
  induction order generalizing acc with
  | nil => rfl
  | cons i rest ih =>
      have hji : j ≠ i := fun he => h (he ▸ List.mem_cons_self i rest)
      have hrest : j ∉ rest := fun hm => h (List.mem_cons_of_mem i hm)
      simp only [fillSlots]
      cases items[i]? with
      | none => exact ih acc hrest
      | some a =>
          rw [ih _ hrest, List.getElem?_set_ne (fun he => hji he.symm)]

theorem fillSlots_getElem?_of_mem {α β : Type} (f : α → β) (items : List α)
    (order : List Nat) (acc : List (Option β)) (j : Nat)
    (hmem : j ∈ order) (hlen : acc.length = items.length)
    (hj : j < items.length) :
    (fillSlots f items order acc)[j]? = (items[j]?).map (fun a => some (f a)) := by
  induction order generalizing acc with
  | nil => cases hmem
  | cons i rest ih =>
      simp only [fillSlots]
      by_cases hji : j ∈ rest
      · cases hv : items[i]? with
        | none => exact ih acc hji hlen
        | some a => exact ih _ hji (by simpa using hlen)
      · have hij : j = i := by
          rcases List.mem_cons.mp hmem with h1 | h1
          · exact h1
          · exact absurd h1 hji
        subst hij
        have ha : items[j]? = some (items.get ⟨j, hj⟩) :=
          List.getElem?_eq_getElem hj
        rw [ha, fillSlots_getElem?_of_not_mem f items rest _ j hji,
          List.getElem?_set_self (by rw [hlen]; exact hj)]
        rfl

theorem collectSlots_map_some {β : Type} (l : List β) :
    collectSlots (l.map some) = some l := by
  induction l with
  | nil => rfl
  | cons b rest ih => simp [collectSlots, ih]

/-- With a completion order covering every input index, parallel batch
execution yields exactly the per-item results in input order. -/
theorem runParallelB_eq_map {α β : Type} (f : α → β) (items : List α)
    (order : List Nat) (hcov : ∀ j, j < items.length → j ∈ order) :
    runParallelB f items order = some (items.map f) := by
  have hfill : fillSlots f items order (List.replicate items.length none)
      = (items.map f).map some := by
    apply List.ext_getElem?
    intro j
    by_cases hj : j < items.length
    · rw [fillSlots_getElem?_of_mem f items order _ j (hcov j hj)
        (by simp) hj]
      rw [List.getElem?_eq_getElem hj]
      have hj2 : j < ((items.map f).map some).length := by simpa using hj
      rw [List.getElem?_eq_getElem hj2]
      simp
    · push_neg at hj
      have h1 : ((items.map f).map some)[j]? = none :=
        List.getElem?_eq_none (by simpa using hj)
      rw [h1]
      apply List.getElem?_eq_none
      rw [fillSlots_length]
      simpa using hj
  rw [runParallelB, hfill, collectSlots_map_some]

theorem seqInvokeTrace_all_ok {α β ε : Type} (f : α → Except ε β)
    (l : List α) (h : ∀ x ∈ l, (f x).isOk = true) :
    seqInvokeTrace f l = l := by
  induction l with
  | nil => rfl
  | cons a rest ih =>
      have ha := h a (List.mem_cons_self a rest)
      cases hfa : f a with
      | error e => rw [hfa] at ha; simp [Except.isOk, Except.toBool] at ha
      | ok b =>
          simp only [seqInvokeTrace, hfa]
          rw [ih (fun x hx => h x (List.mem_cons_of_mem a hx))]

theorem seqInvokeTrace_fail {α β ε : Type} (f : α → Except ε β)
    (xs : List α) (b : α) (ys : List α)
    (hxs : ∀ x ∈ xs, (f x).isOk = true) (hb : (f b).isOk = false) :
    seqInvokeTrace f (xs ++ b :: ys) = xs ++ [b] := by
  induction xs with
  | nil =>
      cases hfb : f b with
      | error e => simp [seqInvokeTrace, hfb]
      | ok v => rw [hfb] at hb; simp [Except.isOk, Except.toBool] at hb
  | cons x rest ih =>
      have hx := hxs x (List.mem_cons_self x rest)
      cases hfx : f x with
      | error e => rw [hfx] at hx; simp [Except.isOk, Except.toBool] at hx
      | ok v =>
          simp only [List.cons_append, seqInvokeTrace, hfx]
          exact congrArg (fun t => x :: t)
            (ih (fun y hy => hxs y (List.mem_cons_of_mem x hy)))

theorem runSequentialB_fail {α β ε : Type} (f : α → Except ε β)
    (xs : List α) (b : α) (ys : List α)
    (hb : (f b).isOk = false) :
    ∃ e, runSequentialB f (xs ++ b :: ys) = .error e := by
  induction xs with
  | nil =>
      cases hfb : f b with
      | error e => exact ⟨e, by simp [runSequentialB, hfb]⟩
      | ok v => rw [hfb] at hb; simp [Except.isOk, Except.toBool] at hb
  | cons x rest ih =>
      cases hfx : f x with
      | error e => exact ⟨e, by simp [runSequentialB, hfx]⟩
      | ok v =>
          rcases ih with ⟨e, he⟩
          exact ⟨e, by simp [runSequentialB, hfx, he]⟩

theorem runSequentialB_all_ok {α β ε : Type} (f : α → Except ε β)
    (l : List α) (h : ∀ x ∈ l, (f x).isOk = true) :
    ∃ bs, runSequentialB f l = .ok bs := by
  induction l with
  | nil => exact ⟨[], rfl⟩
  | cons a rest ih =>
      have ha := h a (List.mem_cons_self a rest)
      cases hfa : f a with
      | error e => rw [hfa] at ha; simp [Except.isOk, Except.toBool] at ha
      | ok b =>
          rcases ih (fun x hx => h x (List.mem_cons_of_mem a hx)) with ⟨bs, hbs⟩
          exact ⟨b :: bs, by simp [runSequentialB, hfa, hbs]⟩

/-- Sequential batch execution over an infallible per-item function yields
the mapped results in input order. -/
theorem runSequentialB_ok_map {α β ε : Type} (g : α → β) (l : List α) :
    runSequentialB (fun a => (Except.ok (g a) : Except ε β)) l
      = .ok (l.map g) := by
  induction l with
  | nil => rfl
  | cons a rest ih => simp [runSequentialB, ih]

/-! ## Concrete cookbook embeddings

Values stored in a Shared Store by the cookbook scripts: strings and
string-to-string dictionaries. -/

/-- A Shared Store value of the cookbook scripts. -/
inductive Val : Type
  | str : String → Val
  | dictv : List (String × String) → Val
deriving DecidableEq, Repr

/-- A Python `dict(pairs)` built from a list of key-value pairs: later pairs
overwrite earlier ones. -/
def pyDict (l : List (String × String)) : List (String × String) :=
  l.foldl (fun d kv => Store.setVal d kv.1 kv.2) []

/-! Embedded from `src/cookbook/python-parallel-batch/main.py`. -/

/-- `dummy_llm_summarize`: deterministic stand-in for the async LLM call
(the 1-second delay affects timing only, not the value). -/
def dummy_llm_summarize (text : String) : String :=
  "Summarized(" ++ toString text.length ++ " chars)"

/-- `SummariesNode.prep_async`: returns `list(shared["data"].items())`;
the store is read, never written. -/
def SummariesNode.prep_async (shared : Store Val) :
    Store Val × Option (List (String × String)) :=
  (shared, match Store.getVal shared "data" with
    | some (.dictv d) => some d
    | _ => none)

/-- `SummariesNode.exec_async`: summarize one (filename, content) item. -/
def SummariesNode.exec_async (item : String × String) : String × String :=
  (item.1, dummy_llm_summarize item.2)

/-- `SummariesNode.post_async`: store `dict(exec_res_list)` under
`"sequential_summaries"` and return action `"done_sequential"`. -/
def SummariesNode.post_async (shared : Store Val)
    (results : List (String × String)) : Store Val × String :=
  (Store.setVal shared "sequential_summaries" (.dictv (pyDict results)),
    "done_sequential")

/-- `SummariesAsyncParallelNode.prep_async`: identical to the sequential
node's prepare phase. -/
def SummariesAsyncParallelNode.prep_async (shared : Store Val) :
    Store Val × Option (List (String × String)) :=
  (shared, match Store.getVal shared "data" with
    | some (.dictv d) => some d
    | _ => none)

/-- `SummariesAsyncParallelNode.exec_async`: identical per-item work. -/
def SummariesAsyncParallelNode.exec_async (item : String × String) :
    String × String :=
  (item.1, dummy_llm_summarize item.2)

/-- `SummariesAsyncParallelNode.post_async`: store `dict(exec_res_list)`
under `"parallel_summaries"` and return action `"done_parallel"`. -/
def SummariesAsyncParallelNode.post_async (shared : Store Val)
    (results : List (String × String)) : Store Val × String :=
  (Store.setVal shared "parallel_summaries" (.dictv (pyDict results)),
    "done_parallel")

/-- One run of the sequential summaries node: prepare, per-item execute in
input order (fail-fast sequential batch), aggregate post. -/
def SummariesNode.run (shared : Store Val) : Option (Store Val × String) :=
  match (SummariesNode.prep_async shared).2 with
  | none => none
  | some items =>
      match runSequentialB
          (fun it => (Except.ok (SummariesNode.exec_async it)
            : Except Unit (String × String))) items with
      | .error _ => none
      | .ok results =>
          some (SummariesNode.post_async (SummariesNode.prep_async shared).1
            results)

/-- One run of the parallel summaries node under completion order `order`:
prepare, concurrent per-item execute, results assembled by input index,
aggregate post. -/
def SummariesAsyncParallelNode.run (shared : Store Val) (order : List Nat) :
    Option (Store Val × String) :=
  match (SummariesAsyncParallelNode.prep_async shared).2 with
  | none => none
  | some items =>
      match runParallelB SummariesAsyncParallelNode.exec_async items order with
      | none => none
      | some results =>
          some (SummariesAsyncParallelNode.post_async
            (SummariesAsyncParallelNode.prep_async shared).1 results)

/-- Completion order of concurrently dispatched tasks with the given
per-task delays: task indices ordered by increasing delay (stable). -/
def insertByDelay (delays : List Nat) (i : Nat) : List Nat → List Nat
  | [] => [i]
  | j :: rest =>
      if delays.getD i 0 < delays.getD j 0 then i :: j :: rest
      else j :: insertByDelay delays i rest

/-- Indices `0, …, n-1` ordered by increasing delay. -/
def completionOrder (delays : List Nat) : List Nat :=
  (List.range delays.length).foldr (insertByDelay delays) []

/-! Embedded from `src/cookbook/pocketflow-rag/nodes.py`:
prepare phases as store transformers (the store is read, never written). -/

/-- `EmbedDocumentsNode.prep`: `return shared["texts"]`. -/
def EmbedDocumentsNode.prep (shared : Store Val) : Store Val × Option Val :=
  (shared, Store.getVal shared "texts")

/-- `CreateIndexNode.prep`: `return shared["embeddings"]`. -/
def CreateIndexNode.prep (shared : Store Val) : Store Val × Option Val :=
  (shared, Store.getVal shared "embeddings")

/-! Embedded from `src/cookbook/python-structured-output/main.py`:
the `__main__` runner script. -/

/-- A Python runtime error raised by the runner script. -/
inductive PyErr : Type
  | attributeError
deriving DecidableEq, Repr

/-- Attribute assignment `obj.name = v` on a plain Python `dict` object:
always raises `AttributeError` (a builtin `dict` does not support setting
arbitrary attributes). -/
def dictSetAttr (_d : List (String × String)) (_name : String) (_v : String) :
    Except PyErr (List (String × String)) :=
  .error .attributeError

/-- Observable outcome of one execution of the runner script. -/
structure ScriptResult : Type where
  error : Option PyErr
  flowConstructed : Bool
  flowRan : Bool
deriving DecidableEq, Repr

/-- The `__main__` block of `python-structured-output/main.py`:
`memory = {}`, then `memory.resume_text = resume_text` (attribute
assignment on a dict), then `flow = Flow(start=ResumeParserNode())` and
`asyncio.run(flow.run(memory))`. Statements after a raised error do not
execute. -/
def structuredOutputMain (resume_text : String) : ScriptResult :=
  let memory : List (String × String) := []
  match dictSetAttr memory "resume_text" resume_text with
  | .error e => { error := some e, flowConstructed := false, flowRan := false }
  | .ok _m => { error := none, flowConstructed := true, flowRan := true }

/-! ## Store evolution along a run -/

theorem stepNode_fst {V P E : Type} (n : Node V P E) (s : Store V) :
    (stepNode n s).1
      = applyWrites s (n.post s (n.prep s) (n.exec (n.prep s))).1 := rfl

/-- One node invocation preserves presence of every key already present. -/
theorem hasKey_stepNode_of_hasKey {V P E : Type} (n : Node V P E)
    (s : Store V) (k : String) (h : Store.hasKey s k = true) :
    Store.hasKey (stepNode n s).1 k = true := by
  rw [stepNode_fst]
  exact hasKey_applyWrites_of_hasKey _ _ _ h

theorem runStores_getElem?_zero {V P E : Type} (nodes : Nat → Node V P E)
    (es : Edges) (cur : Nat) (s : Store V) (fuel : Nat) :
    (runStores nodes es cur s fuel)[0]? = some s := by
  cases fuel with
  | zero => rfl
  | succ m =>
      simp only [runStores]
      cases lookupEdge es cur (stepNode (nodes cur) s).2 <;> simp

/-- Adjacent stores of a run trace: presence of a key propagates across one
node invocation. -/
theorem runStores_adjacent {V P E : Type} (nodes : Nat → Node V P E)
    (es : Edges) (k : String) :
    ∀ fuel cur (s : Store V) i s1 s2,
      (runStores nodes es cur s fuel)[i]? = some s1 →
      (runStores nodes es cur s fuel)[i + 1]? = some s2 →
      Store.hasKey s1 k = true → Store.hasKey s2 k = true := by
  intro fuel
  induction fuel with
  | zero =>
      intro cur s i s1 s2 h1 h2 hk
      rcases List.getElem?_eq_some_iff.mp h2 with ⟨hlt, _⟩
      simp [runStores] at hlt
  | succ m ih =>
      intro cur s i s1 s2 h1 h2 hk
      simp only [runStores] at h1 h2
      cases hl : lookupEdge es cur (stepNode (nodes cur) s).2 with
      | none =>
          rw [hl] at h1 h2
          cases i with
          | zero =>
              have hs1 : s = s1 := by simpa using h1
              have hs2 : (stepNode (nodes cur) s).1 = s2 := by simpa using h2
              subst hs1; subst hs2
              exact hasKey_stepNode_of_hasKey (nodes cur) s k hk
          | succ j =>
              rcases List.getElem?_eq_some_iff.mp h2 with ⟨hlt, _⟩
              simp at hlt
              omega
      | some nxt =>
          rw [hl] at h1 h2
          cases i with
          | zero =>
              have hs1 : s = s1 := by simpa using h1
              rw [List.getElem?_cons_succ, runStores_getElem?_zero] at h2
              have hs2 : (stepNode (nodes cur) s).1 = s2 := by simpa using h2
              subst hs1; subst hs2
              exact hasKey_stepNode_of_hasKey (nodes cur) s k hk
          | succ j =>
              rw [List.getElem?_cons_succ] at h1 h2
              exact ih nxt (stepNode (nodes cur) s).1 j s1 s2 h1 h2 hk

/-- Presence of a key in the run trace is monotone in execution order. -/
theorem runStores_mono {V P E : Type} (nodes : Nat → Node V P E)
    (es : Edges) (k : String) (fuel cur : Nat) (s : Store V) :
    ∀ (d i : Nat) (s1 s2 : Store V),
      (runStores nodes es cur s fuel)[i]? = some s1 →
      (runStores nodes es cur s fuel)[i + d]? = some s2 →
      Store.hasKey s1 k = true → Store.hasKey s2 k = true := by
  intro d
  induction d with
  | zero =>
      intro i s1 s2 h1 h2 hk
      simp only [Nat.add_zero] at h2
      rw [h1] at h2
      cases h2
      exact hk
  | succ e ih =>
      intro i s1 s2 h1 h2 hk
      rcases List.getElem?_eq_some_iff.mp h2 with ⟨hlt, _⟩
      have hmid : i + e < (runStores nodes es cur s fuel).length := by omega
      have h3 : (runStores nodes es cur s fuel)[i + e]?
          = some ((runStores nodes es cur s fuel).get ⟨i + e, hmid⟩) :=
        List.getElem?_eq_getElem hmid
      exact runStores_adjacent nodes es k fuel cur s (i + e) _ s2 h3
        (by simpa [Nat.add_assoc] using h2)
        (ih i s1 _ h1 h3 hk)

/-- A finished run always ends at a node whose emitted action has no
registered edge. -/
theorem runFlow_finished_lookup {V P E : Type} (nodes : Nat → Node V P E)
    (es : Edges) :
    ∀ fuel cur (s s' : Store V) (n : Nat) (a : String),
      runFlow nodes es cur s fuel = .finished s' n a →
      lookupEdge es n a = none := by
  intro fuel
  induction fuel with
  | zero =>
      intro cur s s' n a h
      simp [runFlow] at h
  | succ m ih =>
      intro cur s s' n a h
      simp only [runFlow] at h
      cases hl : lookupEdge es cur (stepNode (nodes cur) s).2 with
      | none =>
          rw [hl] at h
          cases h
          exact hl
      | some nxt =>
          rw [hl] at h
          exact ih nxt (stepNode (nodes cur) s).1 s' n a h

/-- When a node's post phase returns no label, the emitted action is the
default action string. -/
theorem stepNode_snd_of_post_none {V P E : Type} (n : Node V P E)
    (s : Store V)
    (h : (n.post s (n.prep s) (n.exec (n.prep s))).2 = none) :
    (stepNode n s).2 = defaultAction := by
  simp [stepNode, prepPhase, execPhase, postPhase, h]

/-! ## Example fixtures used by the witnesses -/

/-- A node that writes one key and emits action `"x"`. -/
def exNodeX : Node String Unit Unit where
  prep := fun _ => ()
  exec := fun _ => ()
  post := fun _ _ _ => ([("k", "v")], some "x")

/-- A node that writes `"embeddings"` and emits the default action
explicitly (like `EmbedDocumentsNode`). -/
def exNodeEmbed : Node String Unit Unit where
  prep := fun _ => ()
  exec := fun _ => ()
  post := fun _ _ _ => ([("embeddings", "e")], some "default")

/-- A node that writes `"index"` and emits `"done"`
(like `CreateIndexNode`). -/
def exNodeIndex : Node String Unit Unit where
  prep := fun _ => ()
  exec := fun _ => ()
  post := fun _ _ _ => ([("index", "i")], some "done")

/-- A node whose post phase returns no action label. -/
def exNodeNoLabel : Node String Unit Unit where
  prep := fun _ => ()
  exec := fun _ => ()
  post := fun _ _ _ => ([], none)

/-- Two-node pipeline: the embed node feeds the index node. -/
def exPipelineNodes : Nat → Node String Unit Unit :=
  fun n => if n = 0 then exNodeEmbed else exNodeIndex

/-- The single edge of the two-node pipeline. -/
def exPipelineEdges : Edges := [((0, "default"), 1)]

/-- A failing per-item execute call: fails exactly on item `1`. -/
def exSeqF (n : Nat) : Except Unit Nat :=
  if n = 1 then .error () else .ok n

/-! ## Claims -/

/-- C1: flow traversal terminates exactly when edge lookup fails — a run
that finishes does so at a node whose emitted action has no registered
edge (the only normal termination condition), and whenever the current
node's emitted action has no registered edge the run finishes successfully
at that node with that action. -/
theorem claim_C1_termination_iff_lookup_fails {V P E : Type}
    (nodes : Nat → Node V P E) (es : Edges) (fuel cur : Nat) (s : Store V) :
    (∀ (s' : Store V) (n : Nat) (a : String),
        runFlow nodes es cur s fuel = .finished s' n a →
        lookupEdge es n a = none)
    ∧ (∀ (s' : Store V) (a : String), stepNode (nodes cur) s = (s', a) →
        lookupEdge es cur a = none → 0 < fuel →
        runFlow nodes es cur s fuel = .finished s' cur a) := by
  constructor
  · exact fun s' n a h => runFlow_finished_lookup nodes es fuel cur s s' n a h
  · intro s' a hstep hnone hfuel
    cases fuel with
    | zero => exact absurd hfuel (lt_irrefl 0)
    | succ m =>
        simp only [runFlow]
        rw [hstep]
        simp [hnone]

/-- Witness for C1: a node emitting action `"x"` with no edge labelled
`"x"` ends the run there. -/
theorem claim_C1_witness :
    runFlow (fun _ => exNodeX) ([] : Edges) 0 ([] : Store String) 1
      = .finished [("k", "v")] 0 "x" :=
  (claim_C1_termination_iff_lookup_fails (fun _ => exNodeX) ([] : Edges)
      1 0 ([] : Store String)).2
    [("k", "v")] "x" rfl rfl (by decide)

/-- C2: for a parallel batch node, the aggregate result list handed to the
post phase is ordered by input index, for every completion order of the
concurrently dispatched per-item execute calls that resolves every item. -/
theorem claim_C2_parallel_results_in_input_order {α β : Type} (f : α → β)
    (items : List α) (order : List Nat)
    (hcov : ∀ j, j < items.length → j ∈ order) :
    runParallelB f items order = some (items.map f) :=
  runParallelB_eq_map f items order hcov

/-- Witness for C2: items with processing delays 3,1,2 time-units complete
in order 1,2,0 and still yield results in input order. -/
theorem claim_C2_witness :
    completionOrder [3, 1, 2] = [1, 2, 0]
    ∧ runParallelB dummy_llm_summarize ["aaa", "b", "cc"]
        (completionOrder [3, 1, 2])
      = some ["Summarized(3 chars)", "Summarized(1 chars)",
          "Summarized(2 chars)"] := by
  refine ⟨by decide, ?_⟩
  rw [claim_C2_parallel_results_in_input_order dummy_llm_summarize
    ["aaa", "b", "cc"] (completionOrder [3, 1, 2]) (by decide)]
  rfl

/-- C3: a sequential batch invokes the per-item execute calls one at a
time in input order, and when an item fails with no per-item fallback the
batch aborts: the invocation trace is exactly the successful prefix
followed by the failing item, no later item is invoked, and the batch
reports failure. -/
theorem claim_C3_sequential_fail_fast {α β ε : Type} (f : α → Except ε β)
    (xs : List α) (b : α) (ys : List α)
    (hxs : ∀ x ∈ xs, (f x).isOk = true) (hb : (f b).isOk = false) :
    seqInvokeTrace f (xs ++ b :: ys) = xs ++ [b]
    ∧ (runSequentialB f (xs ++ b :: ys)).isOk = false
    ∧ seqInvokeTrace f xs = xs := by
  refine ⟨seqInvokeTrace_fail f xs b ys hxs hb, ?_,
    seqInvokeTrace_all_ok f xs hxs⟩
  rcases runSequentialB_fail f xs b ys hb with ⟨e, he⟩
  rw [he]
  rfl

/-- Witness for C3: items `[0, 1, 2]` with item `1` failing — `0` and `1`
are invoked in order, `2` is never invoked, and the batch fails. -/
theorem claim_C3_witness :
    seqInvokeTrace exSeqF ([0] ++ 1 :: [2]) = [0] ++ [1]
    ∧ (runSequentialB exSeqF ([0] ++ 1 :: [2])).isOk = false
    ∧ seqInvokeTrace exSeqF [0] = [0] :=
  claim_C3_sequential_fail_fast exSeqF [0] 1 [2] (by decide) (by decide)

/-- C4: Shared Store visibility invariant — a key among a post phase's
writes is present and readable in the resulting store, and presence of a
key in the store observed at any point of a run propagates to the store
observed by every subsequently executed node's prepare phase. -/
theorem claim_C4_store_visibility {V P E : Type} (nodes : Nat → Node V P E)
    (es : Edges) (fuel entry : Nat) (s : Store V) (k : String) :
    (∀ (s' : Store V) (ws : List (String × V)) (v : V),
        (k, v) ∈ ws → Store.hasKey (applyWrites s' ws) k = true)
    ∧ (∀ (i j : Nat) (si sj : Store V), i ≤ j →
        (runStores nodes es entry s fuel)[i]? = some si →
        (runStores nodes es entry s fuel)[j]? = some sj →
        Store.hasKey si k = true → Store.hasKey sj k = true) := by
  constructor
  · exact fun s' ws v hm => hasKey_applyWrites_of_mem ws s' k v hm
  · intro i j si sj hij h1 h2 hk
    obtain ⟨d, rfl⟩ : ∃ d, j = i + d := ⟨j - i, by omega⟩
    exact runStores_mono nodes es k fuel entry s d i si sj h1 h2 hk

/-- Witness for C4: the embed node writes `"embeddings"`; the key is
readable after the write and at every later prepare phase of the
two-node pipeline. -/
theorem claim_C4_witness :
    Store.hasKey (applyWrites ([] : Store String) [("embeddings", "e")])
        "embeddings" = true
    ∧ Store.hasKey [("embeddings", "e"), ("index", "i")] "embeddings"
        = true :=
  ⟨(claim_C4_store_visibility exPipelineNodes exPipelineEdges 2 0
      ([] : Store String) "embeddings").1 [] [("embeddings", "e")] "e"
      (by decide),
   (claim_C4_store_visibility exPipelineNodes exPipelineEdges 2 0
      ([] : Store String) "embeddings").2 1 2 [("embeddings", "e")]
      [("embeddings", "e"), ("index", "i")] (by decide) rfl rfl rfl⟩

/-- C5: at most one outgoing edge per (node, action) pair — a second
registration for an existing pair is rejected with a configuration error
at graph-build time, also right after a successful first registration,
while a second edge from the same node under a distinct action string is
accepted. -/
theorem claim_C5_duplicate_edge_rejected (es es' : Edges) (src : Nat)
    (a a' : String) (dst dst' d2 : Nat) :
    ((lookupEdge es src a).isSome = true →
      addEdge es src a dst = .error (.duplicateEdge src a))
    ∧ (addEdge es src a dst = .ok es' →
        addEdge es' src a d2 = .error (.duplicateEdge src a))
    ∧ (addEdge es src a dst = .ok es' → a' ≠ a →
        lookupEdge es src a' = none →
        addEdge es' src a' dst' = .ok (((src, a'), dst') :: es')) := by
  refine ⟨?_, ?_, ?_⟩
  · intro h
    cases hlk : lookupEdge es src a with
    | none => rw [hlk] at h; simp at h
    | some d => simp [addEdge, hlk]
  · intro h
    cases hlk : lookupEdge es src a with
    | none =>
        rw [addEdge, hlk] at h
        cases h
        simp [addEdge, lookupEdge]
    | some d => rw [addEdge, hlk] at h; cases h
  · intro h hne hnone
    cases hlk : lookupEdge es src a with
    | none =>
        rw [addEdge, hlk] at h
        cases h
        have hne' : a ≠ a' := fun hc => hne hc.symm
        simp [addEdge, lookupEdge, hne', hnone]
    | some d => rw [addEdge, hlk] at h; cases h

/-- Witness for C5: on the communication-example graph, re-registering
`(text_input, "count")` errors while registering `(text_input, "exit")`
succeeds. -/
theorem claim_C5_witness :
    addEdge [((0, "count"), 1)] 0 "count" 3
      = .error (.duplicateEdge 0 "count")
    ∧ addEdge [((0, "count"), 1)] 0 "count" 2
      = .error (.duplicateEdge 0 "count")
    ∧ addEdge [((0, "count"), 1)] 0 "exit" 3
      = .ok [((0, "exit"), 3), ((0, "count"), 1)] :=
  ⟨(claim_C5_duplicate_edge_rejected [((0, "count"), 1)] [] 0 "count" ""
      3 0 0).1 rfl,
   (claim_C5_duplicate_edge_rejected ([] : Edges) [((0, "count"), 1)] 0
      "count" "" 1 0 2).2.1 rfl,
   (claim_C5_duplicate_edge_rejected ([] : Edges) [((0, "count"), 1)] 0
      "count" "exit" 1 3 0).2.2 rfl (by decide) rfl⟩

/-- C6: when a node's post phase returns no explicit action, the emitted
action is the default action string, and the flow follows the edge
registered under the default action. -/
theorem claim_C6_default_action {V P E : Type} (nodes : Nat → Node V P E)
    (es : Edges) (cur nxt fuel : Nat) (s : Store V)
    (hpost : ((nodes cur).post s ((nodes cur).prep s)
        ((nodes cur).exec ((nodes cur).prep s))).2 = none)
    (hedge : lookupEdge es cur defaultAction = some nxt) :
    (stepNode (nodes cur) s).2 = defaultAction
    ∧ runFlow nodes es cur s (fuel + 1)
      = runFlow nodes es nxt (stepNode (nodes cur) s).1 fuel := by
  have hact : (stepNode (nodes cur) s).2 = defaultAction :=
    stepNode_snd_of_post_none (nodes cur) s hpost
  refine ⟨hact, ?_⟩
  simp only [runFlow]
  rw [hact, hedge]

/-- Witness for C6: a node returning no label follows the edge registered
under `"default"`. -/
theorem claim_C6_witness :
    (stepNode exNodeNoLabel ([] : Store String)).2 = defaultAction
    ∧ runFlow (fun n => if n = 0 then exNodeNoLabel else exNodeIndex)
        exPipelineEdges 0 ([] : Store String) (1 + 1)
      = runFlow (fun n => if n = 0 then exNodeNoLabel else exNodeIndex)
        exPipelineEdges 1
        (stepNode exNodeNoLabel ([] : Store String)).1 1 :=
  claim_C6_default_action
    (fun n => if n = 0 then exNodeNoLabel else exNodeIndex)
    exPipelineEdges 0 1 1 ([] : Store String) rfl rfl

/-- C7: frame property of the lifecycle — the prepare and execute phases
leave the Shared Store unchanged, the only store mutations of an
invocation are the writes performed in its post phase, and the embedded
cookbook prepare phases are pure read projections. -/
theorem claim_C7_prep_exec_frame {V P E : Type} (n : Node V P E)
    (s : Store V) (p : P) (sh : Store Val) :
    (prepPhase n s).1 = s
    ∧ (execPhase n s p).1 = s
    ∧ (stepNode n s).1
      = applyWrites s (n.post s (n.prep s) (n.exec (n.prep s))).1
    ∧ (EmbedDocumentsNode.prep sh).1 = sh
    ∧ (CreateIndexNode.prep sh).1 = sh
    ∧ (SummariesNode.prep_async sh).1 = sh
    ∧ (SummariesAsyncParallelNode.prep_async sh).1 = sh :=
  ⟨rfl, rfl, rfl, rfl, rfl, rfl, rfl⟩

/-- The Runner driving two flow runs over two initial Shared Stores: the
engine threads no state from one run into the other. -/
def runTwice {V P E : Type} (nodes : Nat → Node V P E) (es : Edges)
    (entry fuel : Nat) (init1 init2 : Store V) :
    RunResult V × RunResult V :=
  (runFlow nodes es entry init1 fuel, runFlow nodes es entry init2 fuel)

/-- C8: two-run determinism — running a flow twice with fresh Shared
Stores of identical initial contents produces identical outcomes,
including identical final Shared Store contents. -/
theorem claim_C8_two_run_determinism {V P E : Type}
    (nodes : Nat → Node V P E) (es : Edges) (entry fuel : Nat)
    (init1 init2 : Store V) (h : init1 = init2) :
    (runTwice nodes es entry fuel init1 init2).1
      = (runTwice nodes es entry fuel init1 init2).2 := by
  rw [runTwice, h]

/-- Witness for C8: the two-node pipeline run twice from equal fresh
stores gives equal results. -/
theorem claim_C8_witness :
    (runTwice exPipelineNodes exPipelineEdges 0 3 ([] : Store String)
        ([] : Store String)).1
      = (runTwice exPipelineNodes exPipelineEdges 0 3 ([] : Store String)
        ([] : Store String)).2 :=
  claim_C8_two_run_determinism exPipelineNodes exPipelineEdges 0 3
    ([] : Store String) ([] : Store String) rfl

/-- C9: the structured-output runner script initialises `memory` as a
plain dict and then performs attribute assignment `memory.resume_text = …`,
which raises `AttributeError` before the Flow is constructed; `Flow.run`
is never invoked. -/
theorem claim_C9_attribute_error_before_flow (resume_text : String) :
    structuredOutputMain resume_text
      = { error := some PyErr.attributeError, flowConstructed := false,
          flowRan := false } := rfl

/-- The two summarizer nodes define the same per-item execute call. -/
theorem parallel_exec_eq_sequential_exec :
    SummariesAsyncParallelNode.exec_async = SummariesNode.exec_async := rfl

/-- The demo of `python-parallel-batch/main.py`: one shared store holding
`"data"`; the sequential flow runs first, then the parallel flow runs on
the same store, under completion order `order`. Yields the final store. -/
def parallelBatchDemo (data : List (String × String)) (order : List Nat) :
    Option (Store Val) :=
  match SummariesNode.run [("data", Val.dictv data)] with
  | none => none
  | some (s1, _) =>
      match SummariesAsyncParallelNode.run s1 order with
      | none => none
      | some (s2, _) => some s2

/-- C10: sequential/parallel equivalence of the two summarizer batch
nodes — after the demo run, the final `"sequential_summaries"` dictionary
equals the final `"parallel_summaries"` dictionary, and both equal the
dictionary of per-item summaries in input order. -/
theorem claim_C10_seq_par_equivalence (data : List (String × String))
    (order : List Nat) (hcov : ∀ j, j < data.length → j ∈ order) :
    ((parallelBatchDemo data order).bind
        (fun s2 => Store.getVal s2 "sequential_summaries"))
      = ((parallelBatchDemo data order).bind
        (fun s2 => Store.getVal s2 "parallel_summaries"))
    ∧ ((parallelBatchDemo data order).bind
        (fun s2 => Store.getVal s2 "sequential_summaries"))
      = some (.dictv (pyDict (data.map SummariesNode.exec_async))) := by
  have hne1 : ("sequential_summaries" : String) ≠ "data" := by decide
  have hne2 : ("parallel_summaries" : String) ≠ "sequential_summaries" := by
    decide
  have hseq : SummariesNode.run [("data", Val.dictv data)]
      = some (Store.setVal [("data", Val.dictv data)] "sequential_summaries"
          (.dictv (pyDict (data.map SummariesNode.exec_async))),
        "done_sequential") := by
    simp [SummariesNode.run, SummariesNode.prep_async, Store.getVal,
      runSequentialB_ok_map, SummariesNode.post_async]
  have hprep2 : Store.getVal (Store.setVal [("data", Val.dictv data)]
      "sequential_summaries"
      (.dictv (pyDict (data.map SummariesNode.exec_async)))) "data"
      = some (Val.dictv data) := by
    rw [Store.getVal_setVal_ne _ _ _ _ hne1]
    simp [Store.getVal]
  have hpar : SummariesAsyncParallelNode.run
      (Store.setVal [("data", Val.dictv data)] "sequential_summaries"
        (.dictv (pyDict (data.map SummariesNode.exec_async)))) order
      = some (Store.setVal
          (Store.setVal [("data", Val.dictv data)] "sequential_summaries"
            (.dictv (pyDict (data.map SummariesNode.exec_async))))
          "parallel_summaries"
          (.dictv (pyDict (data.map SummariesNode.exec_async))),
        "done_parallel") := by
    simp [SummariesAsyncParallelNode.run,
      SummariesAsyncParallelNode.prep_async, hprep2,
      parallel_exec_eq_sequential_exec,
      runParallelB_eq_map SummariesNode.exec_async data order hcov,
      SummariesAsyncParallelNode.post_async]
  have hdemo : parallelBatchDemo data order
      = some (Store.setVal
          (Store.setVal [("data", Val.dictv data)] "sequential_summaries"
            (.dictv (pyDict (data.map SummariesNode.exec_async))))
          "parallel_summaries"
          (.dictv (pyDict (data.map SummariesNode.exec_async)))) := by
    simp [parallelBatchDemo, hseq, hpar]
  rw [hdemo]
  simp only [Option.some_bind]
  rw [Store.getVal_setVal_ne _ _ _ _ hne2, Store.getVal_setVal_self,
    Store.getVal_setVal_self]
  exact ⟨rfl, rfl⟩

/-- The demo's input mapping from `python-parallel-batch/main.py`. -/
def exData : List (String × String) :=
  [("file1.txt", "Hello world 1"), ("file2.txt", "Hello world 2"),
    ("file3.txt", "Hello world 3")]

/-- Witness for C10: on the script's own data, under an out-of-input-order
completion order, the two summaries dictionaries coincide. -/
theorem claim_C10_witness :
    ((parallelBatchDemo exData [2, 0, 1]).bind
        (fun s2 => Store.getVal s2 "sequential_summaries"))
      = ((parallelBatchDemo exData [2, 0, 1]).bind
        (fun s2 => Store.getVal s2 "parallel_summaries"))
    ∧ ((parallelBatchDemo exData [2, 0, 1]).bind
        (fun s2 => Store.getVal s2 "sequential_summaries"))
      = some (.dictv (pyDict (exData.map SummariesNode.exec_async))) :=
  claim_C10_seq_par_equivalence exData [2, 0, 1] (by decide)

end BrainyFlow
